import Mathlib

/-!
Shallow embedding of `examples/export.py`: the sparse-tensor patch extractor
`im2col_3d`, the forward-hook invocation that drives it, the weight-export
reshape, and `normalize_color`.

Conventions of the embedding:
* A sparse tensor is its coordinate/feature rows plus batch size, channel
  count and per-axis tensor stride.  `dense(min_coordinate=[0,0,0])` is
  modelled by `denseAt` / `denseDepth` / `denseHeight` / `denseWidth`:
  the dense extent per axis is `max_coordinate / tensor_stride + 1` and the
  cell `(z,y,x)` holds the feature of the row whose global coordinate is
  `tensor_stride * (z,y,x)`.
* Tensors are modelled as total functions from indices to values; reads that
  the torch code never performs (out of the declared extents) are harmless
  extensions of the graph of the real array.
* Machine floats are idealised as exact arithmetic (`Int` features, `ℚ` for
  the color normalisation), since no claim is about rounding.
-/

namespace MinkExport

/-- A sparse activation tensor: batch size `B`, channel count `C`, per-axis
tensor stride `ts`, and `rows` pairing a global coordinate `(batch, z, y, x)`
with a feature vector. -/
structure SparseTensor where
  B : Nat
  C : Nat
  ts : Nat × Nat × Nat
  rows : List ((Nat × Nat × Nat × Nat) × List Int)

/-- The coordinate matrix `input_sparse.coordinates`, one row per entry. -/
def SparseTensor.coords (s : SparseTensor) : List (Nat × Nat × Nat × Nat) :=
  s.rows.map Prod.fst

/-- Maximum of a list of naturals (0 for the empty list). -/
def listMax (l : List Nat) : Nat := l.foldr max 0

/-- Dense z-extent of `input_sparse.dense(min_coordinate=[0,0,0])`:
`(max_coordinate - 0) / tensor_stride + 1`. -/
def denseDepth (s : SparseTensor) : Nat :=
  listMax (s.rows.map fun q => q.1.2.1) / s.ts.1 + 1

/-- Dense y-extent, as `denseDepth`. -/
def denseHeight (s : SparseTensor) : Nat :=
  listMax (s.rows.map fun q => q.1.2.2.1) / s.ts.2.1 + 1

/-- Dense x-extent, as `denseDepth`. -/
def denseWidth (s : SparseTensor) : Nat :=
  listMax (s.rows.map fun q => q.1.2.2.2) / s.ts.2.2 + 1

/-- Does a coordinate row equal the global coordinate
`(b, ts.1 * z, ts.2.1 * y, ts.2.2 * x)` of dense cell `(b, z, y, x)`? -/
def coordMatch (ts : Nat × Nat × Nat) (b z y x : Nat)
    (cd : Nat × Nat × Nat × Nat) : Bool :=
  cd.1 == b && cd.2.1 == ts.1 * z && cd.2.2.1 == ts.2.1 * y &&
    cd.2.2.2 == ts.2.2 * x

/-- Entry `(b, c, z, y, x)` of the densified tensor `input_data` before
padding: the feature of the row registered at that cell, zero otherwise. -/
def denseAt (s : SparseTensor) (b c z y x : Nat) : Int :=
  match s.rows.find? (fun q => coordMatch s.ts b z y x q.1) with
  | some q => q.2.getD c 0
  | none => 0

/-- Entry `(b, c, i, j, k)` of `input_data` after the symmetric zero padding
`torch.nn.functional.pad` by `padding` on each spatial side. -/
def paddedAt (s : SparseTensor) (padding b c i j k : Nat) : Int :=
  if padding ≤ i ∧ i < denseDepth s + padding ∧
     padding ≤ j ∧ j < denseHeight s + padding ∧
     padding ≤ k ∧ k < denseWidth s + padding then
    denseAt s b c (i - padding) (j - padding) (k - padding)
  else 0

/-- `math.ceil((dim - kernel_size + 1) / stride)` on integers, the output
extent formula of lines 143-145. -/
def outExtent (dim K stride : Nat) : Int :=
  -(Int.fdiv (-((dim : Int) - K + 1)) stride)

/-- `out_depth` for the padded dense tensor. -/
def outD (s : SparseTensor) (K stride padding : Nat) : Nat :=
  (outExtent (denseDepth s + 2 * padding) K stride).toNat

/-- `out_height` for the padded dense tensor. -/
def outH (s : SparseTensor) (K stride padding : Nat) : Nat :=
  (outExtent (denseHeight s + 2 * padding) K stride).toNat

/-- `out_width` for the padded dense tensor. -/
def outW (s : SparseTensor) (K stride padding : Nat) : Nat :=
  (outExtent (denseWidth s + 2 * padding) K stride).toNat

/-- Entry `(b, c, kz, ky, kx, z, y, x)` of `col_unconstrained` after the
slab-copy loop of lines 160-166:
`col_unconstrained[:, :, kz, ky, kx, z, y, x] = input_data[b, c, kz + stride*z, ky + stride*y, kx + stride*x]`. -/
def colUnconstrained (s : SparseTensor) (stride padding : Nat)
    (b c kz ky kx z y x : Nat) : Int :=
  paddedAt s padding b c (kz + stride * z) (ky + stride * y) (kx + stride * x)

/-- The re-masking condition of lines 170-177: coordinate row `q` selects
output location `(b, z, y, x)` when its batch is `b` and its floor-divided
local indices `(q - min_coordinate) // tensor_stride` are `(z, y, x)`. -/
def maskCond (ts : Nat × Nat × Nat) (q : Nat × Nat × Nat × Nat)
    (b z y x : Nat) : Prop :=
  q.1 = b ∧ q.2.1 / ts.1 = z ∧ q.2.2.1 / ts.2.1 = y ∧ q.2.2.2 / ts.2.2 = x

instance (ts : Nat × Nat × Nat) (q : Nat × Nat × Nat × Nat) (b z y x : Nat) :
    Decidable (maskCond ts q b z y x) := by
  unfold maskCond; infer_instance

/-- The 8-dimensional patch tensor, as a function of its indices
`(b, c, kz, ky, kx, z, y, x)`. -/
abbrev Col8 := Nat → Nat → Nat → Nat → Nat → Nat → Nat → Nat → Int

/-- One iteration of the re-masking loop: overwrite the slab of the output
location selected by coordinate row `q` with the corresponding slab of the
unconstrained patch tensor `u`. -/
def maskStep (u : Col8) (ts : Nat × Nat × Nat) (col : Col8)
    (q : Nat × Nat × Nat × Nat) : Col8 :=
  fun b c kz ky kx z y x =>
    if maskCond ts q b z y x then u b c kz ky kx z y x
    else col b c kz ky kx z y x

/-- The whole re-masking loop of lines 170-177, starting from the all-zero
tensor `col` of line 154. -/
def maskLoop (u : Col8) (ts : Nat × Nat × Nat)
    (cl : List (Nat × Nat × Nat × Nat)) : Col8 :=
  cl.foldl (maskStep u ts) (fun _ _ _ _ _ _ _ _ => 0)

/-- The sparsity-enforced patch tensor `col` after the re-masking loop. -/
def colMasked (s : SparseTensor) (stride padding : Nat) : Col8 :=
  maskLoop (colUnconstrained s stride padding) s.ts s.coords

/-- Row-major spatial index of output location `(z, y, x)`. -/
def spatialIndex (oH oW z y x : Nat) : Nat := (z * oH + y) * oW + x

/-- Row index of output location `(b, z, y, x)` in the flattened 2D output:
batch-major, then row-major spatial. -/
def rowIndex (oD oH oW b z y x : Nat) : Nat :=
  b * (oD * oH * oW) + spatialIndex oH oW z y x

/-- Column index of `(c, kz, ky, kx)` in the flattened 2D output: channel
outermost, then the kernel offsets. -/
def colIndex (K c kz ky kx : Nat) : Nat :=
  ((c * K + kz) * K + ky) * K + kx

/-- Entry `(r, m)` of the final 2D matrix produced by the
`view`/`transpose`/`view` sequence of lines 179-180: decode `r` into
`(b, z, y, x)` and `m` into `(c, kz, ky, kx)` and read `col`. -/
def im2colMat (s : SparseTensor) (K stride padding : Nat) (r m : Nat) : Int :=
  colMasked s stride padding
    (r / (outD s K stride padding * outH s K stride padding * outW s K stride padding))
    (m / (K * K * K))
    (m % (K * K * K) / (K * K))
    (m % (K * K) / K)
    (m % K)
    (r % (outD s K stride padding * outH s K stride padding * outW s K stride padding) /
      (outH s K stride padding * outW s K stride padding))
    (r % (outD s K stride padding * outH s K stride padding * outW s K stride padding) %
      (outH s K stride padding * outW s K stride padding) / outW s K stride padding)
    (r % (outD s K stride padding * outH s K stride padding * outW s K stride padding) %
      outW s K stride padding)

/-- Number of rows of the final 2D matrix:
`batch_size * out_depth * out_height * out_width` (line 180). -/
def numRows (s : SparseTensor) (K stride padding : Nat) : Nat :=
  s.B * (outD s K stride padding * outH s K stride padding * outW s K stride padding)

/-- Number of columns of the final 2D matrix: the `-1` of `view` on line 180
resolves to `channels * K * K * K`. -/
def numCols (s : SparseTensor) (K : Nat) : Nat := s.C * (K * K * K)

/-- `im2col_3d` itself: the `assert stride == 1` of line 132 guards the whole
body, so a non-unit stride yields no result at all. -/
def im2col_3d (s : SparseTensor) (K stride padding : Nat) :
    Option (Nat → Nat → Int) :=
  if stride = 1 then some (im2colMat s K stride padding) else none

/-- `im2col_3d` as a state transformer on its input tensor.  Every operation
of the body (`dense`, `pad`, `zeros`, slicing, `view`, `transpose`,
`contiguous`) allocates a fresh tensor and only reads `input_sparse`, so the
post-state of the input is the input itself. -/
def im2col_3d_run (s : SparseTensor) (K stride padding : Nat) :
    SparseTensor × Option (Nat → Nat → Int) :=
  (s, im2col_3d s K stride padding)

/-- The hook's invocation of the extractor (lines 193-194): only when the
layer stride is 1, and always with padding `kernel_size // 2`. -/
def in_hook_col (s : SparseTensor) (K stride : Nat) :
    Option (Nat → Nat → Int) :=
  if stride = 1 then im2col_3d s K stride (K / 2) else none

/-- The weight export of lines 234-236 applied to a kernel tensor of leading
extent `d0`: `kernel.transpose(0, 1)` followed by `view(-1, last_dim)`.
Entry `(r, k)` of the 2D result is entry `(r % d0, r / d0, k)` of the
original 3D kernel. -/
def kernelView (d0 : Nat) (T : Nat → Nat → Nat → Int) (r k : Nat) : Int :=
  T (r % d0) (r / d0) k

/-- Reversal of the weight export: undo the flatten of the two leading axes
and the transpose. -/
def kernelUnview (d0 : Nat) (W : Nat → Nat → Int) (j i k : Nat) : Int :=
  W (i * d0 + j) k

/-- `normalize_color` as a state transformer: `color /= 255` (when the flag
is set) and `color -= 0.5` mutate the caller's tensor in place, and
`color.float()` returns those same values.  First component: the caller's
tensor after the call; second: the returned tensor. -/
def normalize_color (color : List (List ℚ)) (flag : Bool) :
    List (List ℚ) × List (List ℚ) :=
  let c1 := if flag then color.map (List.map fun v => v / 255) else color
  let c2 := c1.map (List.map fun v => v - 1/2)
  (c2, c2)

/-- The 2-voxel example input of the patch-content property: one batch, one
channel, stride-1 coordinates `(0,0,0)` and `(2,2,2)` with feature values
`3` and `5`. -/
def exInput : SparseTensor :=
  ⟨1, 1, (1, 1, 1), [((0, 0, 0, 0), [3]), ((0, 2, 2, 2), [5])]⟩

/-- The densified 3×3×3 grid of `exInput`, written out directly. -/
def c2DenseSpec (z y x : Nat) : Int :=
  if z = 0 ∧ y = 0 ∧ x = 0 then 3
  else if z = 2 ∧ y = 2 ∧ x = 2 then 5
  else 0

/-- Modelled from the spec's patch-content property: the expected 2D patch
matrix for `exInput` with `K = 3`.  Rows at the two active output locations
hold the 3³ neighborhood read from the densified, zero-padded input centered
at that location; every other row is all-zero. -/
def c2Expected (r m : Nat) : Int :=
  if (r / 9 = 0 ∧ r % 9 / 3 = 0 ∧ r % 3 = 0) ∨
     (r / 9 = 2 ∧ r % 9 / 3 = 2 ∧ r % 3 = 2) then
    if 1 ≤ r / 9 + m / 9 ∧ r / 9 + m / 9 ≤ 3 ∧
       1 ≤ r % 9 / 3 + m % 9 / 3 ∧ r % 9 / 3 + m % 9 / 3 ≤ 3 ∧
       1 ≤ r % 3 + m % 3 ∧ r % 3 + m % 3 ≤ 3 then
      c2DenseSpec (r / 9 + m / 9 - 1) (r % 9 / 3 + m % 9 / 3 - 1)
        (r % 3 + m % 3 - 1)
    else 0
  else 0

/-- A concrete 3D kernel tensor for the weight round-trip witness. -/
def cT : Nat → Nat → Nat → Int := fun a b c => a + 2 * b + 5 * c

/-- A concrete 2-row input for the coordinate-set-invariance witness. -/
def exA : SparseTensor :=
  ⟨1, 1, (1, 1, 1), [((0, 0, 0, 0), [2]), ((0, 1, 0, 0), [4])]⟩

/-- `exA` with its rows permuted and the first row duplicated: the same
coordinate set with different order and multiplicity. -/
def exB : SparseTensor :=
  ⟨1, 1, (1, 1, 1),
    [((0, 1, 0, 0), [4]), ((0, 0, 0, 0), [2]), ((0, 0, 0, 0), [2])]⟩

/-- Every member of a list is at most its `listMax`. -/
theorem le_listMax {l : List Nat} {v : Nat} (hv : v ∈ l) : v ≤ listMax l := by
  induction l with
  | nil => cases hv
  | cons a l ih =>
    rcases List.mem_cons.mp hv with h | h
    · subst h; exact Nat.le_max_left _ _
    · exact Nat.le_trans (ih h) (Nat.le_max_right _ _)

/-- `listMax` is monotone under list inclusion. -/
theorem listMax_le_of_subset {l l' : List Nat} (h : ∀ v ∈ l, v ∈ l') :
    listMax l ≤ listMax l' := by
  induction l with
  | nil => exact Nat.zero_le _
  | cons a l ih =>
    have ha : a ≤ listMax l' := le_listMax (h a (List.mem_cons_self a l))
    have hl : listMax l ≤ listMax l' :=
      ih fun v hv => h v (List.mem_cons_of_mem a hv)
    exact max_le ha hl

/-- Lists with the same members have the same `listMax`. -/
theorem listMax_congr {l l' : List Nat} (h : ∀ v, v ∈ l ↔ v ∈ l') :
    listMax l = listMax l' :=
  Nat.le_antisymm (listMax_le_of_subset fun v hv => (h v).mp hv)
    (listMax_le_of_subset fun v hv => (h v).mpr hv)

/-- Characterisation of the re-masking fold from an arbitrary start tensor:
a cell holds the unconstrained value when some coordinate row of the list
selects its output location, and the start value otherwise. -/
theorem maskFold_eq (u : Col8) (ts : Nat × Nat × Nat)
    (cl : List (Nat × Nat × Nat × Nat)) (init : Col8) (b c kz ky kx z y x : Nat) :
    cl.foldl (maskStep u ts) init b c kz ky kx z y x =
      if ∃ q ∈ cl, maskCond ts q b z y x then u b c kz ky kx z y x
      else init b c kz ky kx z y x := by
  induction cl generalizing init with
  | nil => simp
  | cons q cl ih =>
    rw [List.foldl_cons, ih]
    by_cases hq : maskCond ts q b z y x
    · have hex : ∃ q' ∈ q :: cl, maskCond ts q' b z y x :=
        ⟨q, List.mem_cons_self q cl, hq⟩
      by_cases hcl : ∃ q' ∈ cl, maskCond ts q' b z y x
      · simp [hcl, hex]
      · simp [hcl, hex, maskStep, hq]
    · by_cases hcl : ∃ q' ∈ cl, maskCond ts q' b z y x
      · have hex : ∃ q' ∈ q :: cl, maskCond ts q' b z y x := by
          obtain ⟨q', hq', hc⟩ := hcl
          exact ⟨q', List.mem_cons_of_mem q hq', hc⟩
        simp [hcl, hex]
      · have hex : ¬ ∃ q' ∈ q :: cl, maskCond ts q' b z y x := by
          rintro ⟨q', hq', hc⟩
          rcases List.mem_cons.mp hq' with h | h
          · exact hq (h ▸ hc)
          · exact hcl ⟨q', h, hc⟩
        simp [hcl, hex, maskStep, hq]

/-- Characterisation of the masked patch tensor. -/
theorem colMasked_eq (s : SparseTensor) (stride padding : Nat)
    (b c kz ky kx z y x : Nat) :
    colMasked s stride padding b c kz ky kx z y x =
      if ∃ q ∈ s.coords, maskCond s.ts q b z y x then
        colUnconstrained s stride padding b c kz ky kx z y x
      else 0 := by
  unfold colMasked maskLoop
  rw [maskFold_eq]

/-- Splitting a mixed-radix digit: division and remainder of `n * a + r` by
`n` recover `a` and `r` when `r < n`. -/
theorem div_mod_split (n a r : Nat) (hr : r < n) :
    (n * a + r) / n = a ∧ (n * a + r) % n = r := by
  have hn : 0 < n := Nat.lt_of_le_of_lt (Nat.zero_le r) hr
  constructor
  · rw [Nat.mul_add_div hn, Nat.div_eq_of_lt hr, Nat.add_zero]
  · rw [Nat.mul_add_mod, Nat.mod_eq_of_lt hr]

/-- The spatial index is bounded by the product of the output extents. -/
theorem spatialIndex_lt {oD oH oW z y x : Nat} (hz : z < oD) (hy : y < oH)
    (hx : x < oW) : spatialIndex oH oW z y x < oD * oH * oW := by
  unfold spatialIndex
  have h1 : z * oH + y < oD * oH := by
    calc z * oH + y < z * oH + oH := Nat.add_lt_add_left hy _
    _ = (z + 1) * oH := by ring
    _ ≤ oD * oH := Nat.mul_le_mul_right _ hz
  calc (z * oH + y) * oW + x < (z * oH + y) * oW + oW := Nat.add_lt_add_left hx _
  _ = (z * oH + y + 1) * oW := by ring
  _ ≤ oD * oH * oW := Nat.mul_le_mul_right _ h1

/-- Decoding the row index recovers the batch and spatial coordinates. -/
theorem rowIndex_decode {oD oH oW : Nat} (b : Nat) {z y x : Nat} (hz : z < oD)
    (hy : y < oH) (hx : x < oW) :
    rowIndex oD oH oW b z y x / (oD * oH * oW) = b ∧
    rowIndex oD oH oW b z y x % (oD * oH * oW) / (oH * oW) = z ∧
    rowIndex oD oH oW b z y x % (oD * oH * oW) % (oH * oW) / oW = y ∧
    rowIndex oD oH oW b z y x % (oD * oH * oW) % oW = x := by
  have hsp : spatialIndex oH oW z y x < oD * oH * oW := spatialIndex_lt hz hy hx
  have hrow : rowIndex oD oH oW b z y x =
      (oD * oH * oW) * b + spatialIndex oH oW z y x := by
    unfold rowIndex; ring
  have h0 := div_mod_split (oD * oH * oW) b (spatialIndex oH oW z y x) hsp
  have hyx : oW * y + x < oH * oW := by
    have h2 : y * oW + x < oH * oW := by
      calc y * oW + x < y * oW + oW := Nat.add_lt_add_left hx _
      _ = (y + 1) * oW := by ring
      _ ≤ oH * oW := Nat.mul_le_mul_right _ hy
    calc oW * y + x = y * oW + x := by ring
    _ < oH * oW := h2
  have hsp2 : spatialIndex oH oW z y x = (oH * oW) * z + (oW * y + x) := by
    unfold spatialIndex; ring
  have h1 := div_mod_split (oH * oW) z (oW * y + x) hyx
  have h2 := div_mod_split oW y x hx
  have hsp3 : spatialIndex oH oW z y x = oW * (oH * z + y) + x := by
    unfold spatialIndex; ring
  have h3 := div_mod_split oW (oH * z + y) x hx
  refine ⟨?_, ?_, ?_, ?_⟩
  · rw [hrow, h0.1]
  · rw [hrow, h0.2, hsp2, h1.1]
  · rw [hrow, h0.2, hsp2, h1.2, h2.1]
  · rw [hrow, h0.2, hsp3, h3.2]

/-- Decoding the column index recovers the channel and kernel offsets. -/
theorem colIndex_decode {K : Nat} (c : Nat) {kz ky kx : Nat} (hkz : kz < K)
    (hky : ky < K) (hkx : kx < K) :
    colIndex K c kz ky kx / (K * K * K) = c ∧
    colIndex K c kz ky kx % (K * K * K) / (K * K) = kz ∧
    colIndex K c kz ky kx % (K * K) / K = ky ∧
    colIndex K c kz ky kx % K = kx := by
  have hyx : K * ky + kx < K * K := by
    calc K * ky + kx < K * ky + K := Nat.add_lt_add_left hkx _
    _ = K * (ky + 1) := by ring
    _ ≤ K * K := Nat.mul_le_mul_left _ hky
  have hrest : (K * K) * kz + (K * ky + kx) < K * K * K := by
    calc (K * K) * kz + (K * ky + kx) < (K * K) * kz + K * K :=
      Nat.add_lt_add_left hyx _
    _ = (K * K) * (kz + 1) := by ring
    _ ≤ (K * K) * K := Nat.mul_le_mul_left _ hkz
    _ = K * K * K := by ring
  have hcol : colIndex K c kz ky kx =
      (K * K * K) * c + ((K * K) * kz + (K * ky + kx)) := by
    unfold colIndex; ring
  have h0 := div_mod_split (K * K * K) c _ hrest
  have h1 := div_mod_split (K * K) kz (K * ky + kx) hyx
  have h2 := div_mod_split K ky kx hkx
  have hcol2 : colIndex K c kz ky kx = (K * K) * (K * c + kz) + (K * ky + kx) := by
    unfold colIndex; ring
  have hcol3 : colIndex K c kz ky kx = K * ((c * K + kz) * K + ky) + kx := by
    unfold colIndex; ring
  have h3 := div_mod_split (K * K) (K * c + kz) (K * ky + kx) hyx
  have h4 := div_mod_split K ((c * K + kz) * K + ky) kx hkx
  refine ⟨?_, ?_, ?_, ?_⟩
  · rw [hcol, h0.1]
  · rw [hcol, h0.2, h1.1]
  · rw [hcol2, h3.2, h2.1]
  · rw [hcol3, h4.2]

/-- Reading the flattened matrix at encoded row/column indices is reading the
8D masked patch tensor at the corresponding multi-index. -/
theorem im2colMat_encode (s : SparseTensor) (K stride padding b c : Nat)
    {z y x kz ky kx : Nat} (hz : z < outD s K stride padding)
    (hy : y < outH s K stride padding) (hx : x < outW s K stride padding)
    (hkz : kz < K) (hky : ky < K) (hkx : kx < K) :
    im2colMat s K stride padding
      (rowIndex (outD s K stride padding) (outH s K stride padding)
        (outW s K stride padding) b z y x)
      (colIndex K c kz ky kx) =
    colMasked s stride padding b c kz ky kx z y x := by
  obtain ⟨hr0, hr1, hr2, hr3⟩ := rowIndex_decode b hz hy hx
  obtain ⟨hc0, hc1, hc2, hc3⟩ := colIndex_decode c hkz hky hkx
  unfold im2colMat
  rw [hr0, hr1, hr2, hr3, hc0, hc1, hc2, hc3]

/-- With an odd kernel size and the implicit padding `K / 2`, the output
extent at stride 1 equals the unpadded dense extent. -/
theorem toNat_outExtent_pad (d K : Nat) (hK : Odd K) :
    (outExtent (d + 2 * (K / 2)) K 1).toNat = d := by
  obtain ⟨j, hj⟩ := hK
  subst hj
  have h2 : (2 * j + 1) / 2 = j := by omega
  rw [h2]
  unfold outExtent
  rw [Nat.cast_one, Int.fdiv_one]
  have h3 : -(-(((d + 2 * j : Nat) : Int) - ((2 * j + 1 : Nat) : Int) + 1)) =
      (d : Int) := by push_cast; ring
  rw [h3]
  simp

/-- C1: with stride 1 and padding `K / 2`, the flattened patch matrix is
all-zero on every row whose output location `(b, z, y, x)` is not selected by
any registered input coordinate under `(coord - min) // tensor_stride`, and
on a selected row it carries exactly the unconstrained receptive-field values
— so the nonzero support is contained in the registered locations and nothing
registered is dropped. -/
theorem c1_sparsity_preservation (s : SparseTensor) (K b c : Nat)
    {z y x kz ky kx : Nat} (hz : z < outD s K 1 (K / 2))
    (hy : y < outH s K 1 (K / 2)) (hx : x < outW s K 1 (K / 2))
    (hkz : kz < K) (hky : ky < K) (hkx : kx < K) :
    (¬ (∃ q ∈ s.coords, maskCond s.ts q b z y x) →
      im2colMat s K 1 (K / 2)
        (rowIndex (outD s K 1 (K / 2)) (outH s K 1 (K / 2))
          (outW s K 1 (K / 2)) b z y x)
        (colIndex K c kz ky kx) = 0) ∧
    ((∃ q ∈ s.coords, maskCond s.ts q b z y x) →
      im2colMat s K 1 (K / 2)
        (rowIndex (outD s K 1 (K / 2)) (outH s K 1 (K / 2))
          (outW s K 1 (K / 2)) b z y x)
        (colIndex K c kz ky kx) =
        colUnconstrained s 1 (K / 2) b c kz ky kx z y x) := by
  rw [im2colMat_encode s K 1 (K / 2) b c hz hy hx hkz hky hkx, colMasked_eq]
  constructor
  · intro h; simp [h]
  · intro h; simp [h]

/-- C1 witness: on the two-voxel example the row of the unregistered output
location `(0, 1, 1, 1)` is zero. -/
theorem c1_sparsity_preservation_witness :
    im2colMat exInput 3 1 (3 / 2)
      (rowIndex (outD exInput 3 1 (3 / 2)) (outH exInput 3 1 (3 / 2))
        (outW exInput 3 1 (3 / 2)) 0 1 1 1)
      (colIndex 3 0 1 1 1) = 0 :=
  (c1_sparsity_preservation exInput 3 0 0 (by decide) (by decide) (by decide)
    (by decide) (by decide) (by decide)).1 (by decide)

/-- C2: on the manually constructed 2-voxel input (one batch, coordinates
`(0,0,0)` and `(2,2,2)`, stride 1, `K = 3`, one channel, features 3 and 5,
padding `3 / 2 = 1`), every entry of the extractor's matrix equals the
expected matrix that reads the 3³ neighborhood of the densified, zero-padded
input centered at each active location and is zero on every other row. -/
theorem c2_patch_content :
    ∀ r : Fin 27, ∀ m : Fin 27,
      im2colMat exInput 3 1 1 r.1 m.1 = c2Expected r.1 m.1 := by decide

/-- C3: `im2col_3d` yields no result at all for any stride other than 1
(the assertion guards the whole body), and always yields a result at
stride 1. -/
theorem c3_stride_assert (s : SparseTensor) (K stride padding : Nat) :
    (stride ≠ 1 → im2col_3d s K stride padding = none) ∧
    (stride = 1 → (im2col_3d s K stride padding).isSome = true) := by
  constructor <;> intro h <;> simp [im2col_3d, h]

/-- C3 witness: stride 2 is rejected and stride 1 is accepted on the
two-voxel example. -/
theorem c3_stride_assert_witness :
    im2col_3d exInput 3 2 1 = none ∧ (im2col_3d exInput 3 1 1).isSome = true :=
  ⟨(c3_stride_assert exInput 3 2 1).1 (by decide),
   (c3_stride_assert exInput 3 1 1).2 rfl⟩

/-- C4: the hook's invocation carries no padding parameter; whenever it runs
the extractor (exactly when the layer stride is 1), the padding applied to
the densified grid is `kernel_size / 2`, implied by the kernel size alone. -/
theorem c4_fixed_padding (s : SparseTensor) (K stride : Nat) :
    in_hook_col s K stride =
      if stride = 1 then some (im2colMat s K stride (K / 2)) else none := by
  unfold in_hook_col im2col_3d
  by_cases h : stride = 1 <;> simp [h]

/-- C5: the flattened output has `batch * outD * outH * outW` rows and
`channels * K³` columns, the output extents are the `ceil((dim - K + 1) /
stride)` formula applied to the padded dense extents, rows are in batch-major
then row-major-spatial order and columns enumerate `(channel, kz, ky, kx)`
with channel outermost. -/
theorem c5_shape_layout (s : SparseTensor) (K padding b c : Nat)
    {z y x kz ky kx : Nat} (hz : z < outD s K 1 padding)
    (hy : y < outH s K 1 padding) (hx : x < outW s K 1 padding)
    (hkz : kz < K) (hky : ky < K) (hkx : kx < K) :
    numRows s K 1 padding =
      s.B * (outD s K 1 padding * outH s K 1 padding * outW s K 1 padding) ∧
    numCols s K = s.C * (K * K * K) ∧
    outD s K 1 padding = (outExtent (denseDepth s + 2 * padding) K 1).toNat ∧
    outH s K 1 padding = (outExtent (denseHeight s + 2 * padding) K 1).toNat ∧
    outW s K 1 padding = (outExtent (denseWidth s + 2 * padding) K 1).toNat ∧
    im2col_3d s K 1 padding = some (im2colMat s K 1 padding) ∧
    im2colMat s K 1 padding
      (rowIndex (outD s K 1 padding) (outH s K 1 padding)
        (outW s K 1 padding) b z y x)
      (colIndex K c kz ky kx) =
      colMasked s 1 padding b c kz ky kx z y x :=
  ⟨rfl, rfl, rfl, rfl, rfl, by simp [im2col_3d],
    im2colMat_encode s K 1 padding b c hz hy hx hkz hky hkx⟩

/-- C5 witness: the layout correspondence evaluated on the two-voxel
example at row location `(0, 2, 2, 2)` and column `(0, 1, 1, 1)`. -/
theorem c5_shape_layout_witness :
    im2colMat exInput 3 1 1
      (rowIndex (outD exInput 3 1 1) (outH exInput 3 1 1)
        (outW exInput 3 1 1) 0 2 2 2)
      (colIndex 3 0 1 1 1) =
      colMasked exInput 1 1 0 0 1 1 1 2 2 2 :=
  (c5_shape_layout exInput 3 1 0 0 (by decide) (by decide) (by decide)
    (by decide) (by decide) (by decide)).2.2.2.2.2.2

/-- C6: the extractor leaves its input tensor unchanged (every torch
operation in its body allocates a fresh tensor), and a second run on the
post-state produces the identical output. -/
theorem c6_no_mutation_idempotent (s : SparseTensor) (K stride padding : Nat) :
    (im2col_3d_run s K stride padding).1 = s ∧
    (im2col_3d_run (im2col_3d_run s K stride padding).1 K stride padding).2 =
      (im2col_3d_run s K stride padding).2 :=
  ⟨rfl, rfl⟩

/-- C7: the weight export (swap the first two kernel axes, flatten the
leading axes keeping the last) is reversed exactly by undoing the flatten
and the swap: every in-bounds entry of the original kernel is recovered. -/
theorem c7_weight_roundtrip (d0 : Nat) (T : Nat → Nat → Nat → Int)
    (j i k : Nat) (hj : j < d0) :
    kernelUnview d0 (kernelView d0 T) j i k = T j i k := by
  unfold kernelUnview kernelView
  obtain ⟨hd, hm⟩ := div_mod_split d0 i j hj
  rw [Nat.mul_comm i d0, hm, hd]

/-- C7 witness: the round trip on a concrete kernel entry. -/
theorem c7_weight_roundtrip_witness :
    kernelUnview 2 (kernelView 2 cT) 1 3 4 = cT 1 3 4 :=
  c7_weight_roundtrip 2 cT 1 3 4 (by decide)

/-- C8: `normalize_color` mutates the caller's tensor in place — after the
call it holds the values divided by 255 (when the flag is set) and shifted
by one half — the returned tensor carries exactly the mutated values, and on
a concrete input the post-state differs from the argument, so the function
is not pure. -/
theorem c8_normalize_color_mutates :
    (∀ (color : List (List ℚ)) (flag : Bool),
      (normalize_color color flag).1 =
        (if flag then color.map (List.map fun v => v / 255) else color).map
          (List.map fun v => v - 1/2) ∧
      (normalize_color color flag).2 = (normalize_color color flag).1) ∧
    (normalize_color [[1]] false).1 ≠ [[1]] := by
  refine ⟨fun color flag => ⟨rfl, rfl⟩, ?_⟩
  simp [normalize_color]

/-- C9: for odd kernel size, padding `K / 2` and stride 1, the per-axis
output extents equal the unpadded dense extents, and the local index
`(coordinate - min) // tensor_stride` of every registered row lies below
them, so the masked-copy indexing stays in bounds. -/
theorem c9_remask_index_bounds (s : SparseTensor) (K : Nat) (hK : Odd K)
    (q : (Nat × Nat × Nat × Nat) × List Int) (hq : q ∈ s.rows) :
    outD s K 1 (K / 2) = denseDepth s ∧
    outH s K 1 (K / 2) = denseHeight s ∧
    outW s K 1 (K / 2) = denseWidth s ∧
    q.1.2.1 / s.ts.1 < outD s K 1 (K / 2) ∧
    q.1.2.2.1 / s.ts.2.1 < outH s K 1 (K / 2) ∧
    q.1.2.2.2 / s.ts.2.2 < outW s K 1 (K / 2) := by
  have hD : outD s K 1 (K / 2) = denseDepth s :=
    toNat_outExtent_pad (denseDepth s) K hK
  have hH : outH s K 1 (K / 2) = denseHeight s :=
    toNat_outExtent_pad (denseHeight s) K hK
  have hW : outW s K 1 (K / 2) = denseWidth s :=
    toNat_outExtent_pad (denseWidth s) K hK
  refine ⟨hD, hH, hW, ?_, ?_, ?_⟩
  · rw [hD]
    have hm : q.1.2.1 ∈ s.rows.map fun q => q.1.2.1 :=
      List.mem_map_of_mem _ hq
    have := Nat.div_le_div_right (c := s.ts.1) (le_listMax hm)
    exact Nat.lt_succ_of_le this
  · rw [hH]
    have hm : q.1.2.2.1 ∈ s.rows.map fun q => q.1.2.2.1 :=
      List.mem_map_of_mem _ hq
    have := Nat.div_le_div_right (c := s.ts.2.1) (le_listMax hm)
    exact Nat.lt_succ_of_le this
  · rw [hW]
    have hm : q.1.2.2.2 ∈ s.rows.map fun q => q.1.2.2.2 :=
      List.mem_map_of_mem _ hq
    have := Nat.div_le_div_right (c := s.ts.2.2) (le_listMax hm)
    exact Nat.lt_succ_of_le this

/-- C9 witness: bounds evaluated on the two-voxel example's second row. -/
theorem c9_remask_index_bounds_witness :
    outD exInput 3 1 (3 / 2) = denseDepth exInput ∧
    outH exInput 3 1 (3 / 2) = denseHeight exInput ∧
    outW exInput 3 1 (3 / 2) = denseWidth exInput ∧
    (2 : Nat) / exInput.ts.1 < outD exInput 3 1 (3 / 2) ∧
    (2 : Nat) / exInput.ts.2.1 < outH exInput 3 1 (3 / 2) ∧
    (2 : Nat) / exInput.ts.2.2 < outW exInput 3 1 (3 / 2) :=
  c9_remask_index_bounds exInput 3 (by decide) ((0, 2, 2, 2), [5]) (by decide)

/-- `listMax` of mapped lists agrees when every image value on one side
occurs on the other. -/
theorem listMax_map_congr {α : Type} (f : α → Nat) {l l' : List α}
    (h1 : ∀ a ∈ l, ∃ a' ∈ l', f a = f a')
    (h2 : ∀ a' ∈ l', ∃ a ∈ l, f a = f a') :
    listMax (l.map f) = listMax (l'.map f) := by
  apply listMax_congr
  intro v
  simp only [List.mem_map]
  constructor
  · rintro ⟨a, ha, rfl⟩
    obtain ⟨a', ha', he⟩ := h1 a ha
    exact ⟨a', ha', he.symm⟩
  · rintro ⟨a', ha', rfl⟩
    obtain ⟨a, ha, he⟩ := h2 a' ha'
    exact ⟨a, ha, he⟩

/-- A matching coordinate row is the global coordinate of the dense cell. -/
theorem coordMatch_eq {ts : Nat × Nat × Nat} {b z y x : Nat}
    {cd : Nat × Nat × Nat × Nat} (h : coordMatch ts b z y x cd = true) :
    cd = (b, ts.1 * z, ts.2.1 * y, ts.2.2 * x) := by
  obtain ⟨a, u, v, w⟩ := cd
  simp only [coordMatch, Bool.and_eq_true, beq_iff_eq] at h
  simp_all

/-- The dense extents depend only on the coordinate set and the stride. -/
theorem denseDims_congr {s s' : SparseTensor} (hts : s.ts = s'.ts)
    (hm1 : ∀ q ∈ s.rows, ∃ q' ∈ s'.rows, q.1 = q'.1)
    (hm2 : ∀ q' ∈ s'.rows, ∃ q ∈ s.rows, q.1 = q'.1) :
    denseDepth s = denseDepth s' ∧ denseHeight s = denseHeight s' ∧
      denseWidth s = denseWidth s' := by
  refine ⟨?_, ?_, ?_⟩
  · unfold denseDepth
    rw [hts, listMax_map_congr (fun q => q.1.2.1)
      (fun q hq => (hm1 q hq).imp fun q' h => ⟨h.1, by simp [h.2]⟩)
      (fun q' hq' => (hm2 q' hq').imp fun q h => ⟨h.1, by simp [h.2]⟩)]
  · unfold denseHeight
    rw [hts, listMax_map_congr (fun q => q.1.2.2.1)
      (fun q hq => (hm1 q hq).imp fun q' h => ⟨h.1, by simp [h.2]⟩)
      (fun q' hq' => (hm2 q' hq').imp fun q h => ⟨h.1, by simp [h.2]⟩)]
  · unfold denseWidth
    rw [hts, listMax_map_congr (fun q => q.1.2.2.2)
      (fun q hq => (hm1 q hq).imp fun q' h => ⟨h.1, by simp [h.2]⟩)
      (fun q' hq' => (hm2 q' hq').imp fun q h => ⟨h.1, by simp [h.2]⟩)]

/-- The densified tensor depends only on the coordinate set, the stride and
the coordinate-to-feature association. -/
theorem denseAt_congr {s s' : SparseTensor} (hts : s.ts = s'.ts)
    (hm1 : ∀ q ∈ s.rows, ∃ q' ∈ s'.rows, q.1 = q'.1)
    (hm2 : ∀ q' ∈ s'.rows, ∃ q ∈ s.rows, q.1 = q'.1)
    (hcons : ∀ q ∈ s.rows, ∀ q' ∈ s'.rows, q.1 = q'.1 → q.2 = q'.2)
    (b c z y x : Nat) : denseAt s b c z y x = denseAt s' b c z y x := by
  unfold denseAt
  rw [hts]
  cases hfind : s.rows.find? (fun q => coordMatch s'.ts b z y x q.1) with
  | none =>
    cases hfind' : s'.rows.find? (fun q => coordMatch s'.ts b z y x q.1) with
    | none => rfl
    | some q' =>
      exfalso
      have hq'mem := List.mem_of_find?_eq_some hfind'
      have hq'p := List.find?_some hfind'
      obtain ⟨q, hqmem, he⟩ := hm2 q' hq'mem
      have hnone := List.find?_eq_none.mp hfind q hqmem
      rw [he] at hnone
      exact hnone hq'p
  | some q =>
    have hqmem := List.mem_of_find?_eq_some hfind
    have hqp := List.find?_some hfind
    cases hfind' : s'.rows.find? (fun q => coordMatch s'.ts b z y x q.1) with
    | none =>
      exfalso
      obtain ⟨q'', hq''mem, he⟩ := hm1 q hqmem
      have hnone := List.find?_eq_none.mp hfind' q'' hq''mem
      rw [← he] at hnone
      exact hnone hqp
    | some q' =>
      have hq'mem := List.mem_of_find?_eq_some hfind'
      have hq'p := List.find?_some hfind'
      have hcoord : q.1 = q'.1 := by
        rw [coordMatch_eq hqp, coordMatch_eq hq'p]
      show q.2.getD c 0 = q'.2.getD c 0
      rw [hcons q hqmem q' hq'mem hcoord]

/-- The padded dense tensor depends only on the coordinate set, the stride
and the coordinate-to-feature association. -/
theorem paddedAt_congr {s s' : SparseTensor} (hts : s.ts = s'.ts)
    (hm1 : ∀ q ∈ s.rows, ∃ q' ∈ s'.rows, q.1 = q'.1)
    (hm2 : ∀ q' ∈ s'.rows, ∃ q ∈ s.rows, q.1 = q'.1)
    (hcons : ∀ q ∈ s.rows, ∀ q' ∈ s'.rows, q.1 = q'.1 → q.2 = q'.2)
    (padding b c i j k : Nat) :
    paddedAt s padding b c i j k = paddedAt s' padding b c i j k := by
  obtain ⟨hD, hH, hW⟩ := denseDims_congr hts hm1 hm2
  unfold paddedAt
  rw [hD, hH, hW]
  split_ifs with h
  · exact denseAt_congr hts hm1 hm2 hcons b c _ _ _
  · rfl

/-- The masked patch tensor depends only on the coordinate set, the stride
and the coordinate-to-feature association. -/
theorem colMasked_congr {s s' : SparseTensor} (hts : s.ts = s'.ts)
    (hm1 : ∀ q ∈ s.rows, ∃ q' ∈ s'.rows, q.1 = q'.1)
    (hm2 : ∀ q' ∈ s'.rows, ∃ q ∈ s.rows, q.1 = q'.1)
    (hcons : ∀ q ∈ s.rows, ∀ q' ∈ s'.rows, q.1 = q'.1 → q.2 = q'.2)
    (stride padding b c kz ky kx z y x : Nat) :
    colMasked s stride padding b c kz ky kx z y x =
      colMasked s' stride padding b c kz ky kx z y x := by
  rw [colMasked_eq, colMasked_eq]
  have hiff : (∃ q ∈ s.coords, maskCond s.ts q b z y x) ↔
      (∃ q ∈ s'.coords, maskCond s'.ts q b z y x) := by
    unfold SparseTensor.coords
    rw [hts]
    simp only [List.mem_map]
    constructor
    · rintro ⟨cd, ⟨q, hq, rfl⟩, hc⟩
      obtain ⟨q', hq', he⟩ := hm1 q hq
      exact ⟨q'.1, ⟨q', hq', rfl⟩, he ▸ hc⟩
    · rintro ⟨cd, ⟨q', hq', rfl⟩, hc⟩
      obtain ⟨q, hq, he⟩ := hm2 q' hq'
      exact ⟨q.1, ⟨q, hq, rfl⟩, he ▸ hc⟩
  by_cases h : ∃ q ∈ s.coords, maskCond s.ts q b z y x
  · rw [if_pos h, if_pos (hiff.mp h)]
    exact paddedAt_congr hts hm1 hm2 hcons padding b c _ _ _
  · rw [if_neg h, if_neg (fun h' => h (hiff.mpr h'))]

/-- C10: the final patch matrix is a function only of the set of registered
coordinates (with their features) — not of the order or multiplicity of the
coordinate rows: two inputs with equal stride, the same coordinate set, and
agreeing features on equal coordinates produce identical matrices. -/
theorem c10_coordinate_set_function {s s' : SparseTensor}
    (hts : s.ts = s'.ts)
    (hm1 : ∀ q ∈ s.rows, ∃ q' ∈ s'.rows, q.1 = q'.1)
    (hm2 : ∀ q' ∈ s'.rows, ∃ q ∈ s.rows, q.1 = q'.1)
    (hcons : ∀ q ∈ s.rows, ∀ q' ∈ s'.rows, q.1 = q'.1 → q.2 = q'.2)
    (K stride padding r m : Nat) :
    im2colMat s K stride padding r m = im2colMat s' K stride padding r m := by
  obtain ⟨hD, hH, hW⟩ := denseDims_congr hts hm1 hm2
  have hoD : outD s K stride padding = outD s' K stride padding := by
    unfold outD; rw [hD]
  have hoH : outH s K stride padding = outH s' K stride padding := by
    unfold outH; rw [hH]
  have hoW : outW s K stride padding = outW s' K stride padding := by
    unfold outW; rw [hW]
  unfold im2colMat
  rw [hoD, hoH, hoW]
  exact colMasked_congr hts hm1 hm2 hcons stride padding _ _ _ _ _ _ _ _

/-- C10 witness: permuting the rows of the two-voxel example and duplicating
one of them leaves a sample entry of the patch matrix unchanged. -/
theorem c10_coordinate_set_function_witness :
    im2colMat exA 3 1 1 9 13 = im2colMat exB 3 1 1 9 13 :=
  c10_coordinate_set_function (by decide) (by decide) (by decide) (by decide)
    3 1 1 9 13

end MinkExport
